import Mathlib

/-!
Verification of the battery-cell test-bench dashboard
(`battery_cell_app.py`) against its natural-language specification.

Modelling conventions:
* Python floats are modelled as exact rationals (`ℚ`); `round(x, d)` is
  `roundTo d x` below.
* The process-wide pseudorandom source is modelled by passing the raw
  uniform samples explicitly (`RandSamples`): each call site of
  `random.uniform` corresponds to one field of the sample record.
* `st.session_state.cells_data` is a Python `dict` keyed by `"cell_i"`;
  dicts are insertion-ordered, so it is modelled as an association list
  `List (ℕ × CellData)` keyed by the slot number `i`, with dict
  assignment (`dictSet`) and deletion (`dictDel`) preserving that order.
* Strings that reach CSV text are modelled as `List Char`.
-/

set_option autoImplicit false

namespace BatteryApp

/-- `round(q, d)` of Python on exact rationals: round to `d` decimal
places (Python rounds half-to-even; the claims below only use that the
result is the nearest multiple of `10^-d`, which both conventions
satisfy, so Mathlib's `round` is used). -/
def roundTo (d : ℕ) (q : ℚ) : ℚ :=
  (round (q * 10 ^ d) : ℤ) / 10 ^ d

/-- The raw draws of the three `random.uniform` calls inside
`get_default_values`: `temp_raw ~ U(25,40)`, `current_raw ~ U(1,5)` and
`cap_raw ~ U(2500,3500)` (LFP) or `U(2800,3800)` (NMC). -/
structure RandSamples where
  temp_raw : ℚ
  current_raw : ℚ
  cap_raw : ℚ
  deriving Repr, DecidableEq

/-- The dict returned by `get_default_values`. -/
structure DefaultValues where
  voltage : ℚ
  max_voltage : ℚ
  min_voltage : ℚ
  temp : ℚ
  current : ℚ
  capacitance : ℚ
  deriving Repr, DecidableEq

/-- `get_default_values(cell_type)` (battery_cell_app.py:294-313).
The source branches on `cell_type == "LFP"`; every other value falls
into the `else:  # NMC` branch. -/
def get_default_values (cell_type : String) (r : RandSamples) : DefaultValues :=
  if cell_type = "LFP" then
    { voltage := 3.2
      max_voltage := 3.4
      min_voltage := 2.8
      temp := roundTo 1 r.temp_raw
      current := roundTo 2 r.current_raw
      capacitance := roundTo 0 r.cap_raw }
  else
    { voltage := 3.6
      max_voltage := 4.0
      min_voltage := 3.2
      temp := roundTo 1 r.temp_raw
      current := roundTo 2 r.current_raw
      capacitance := roundTo 0 r.cap_raw }

/-- One entry of the `presets` table inside `get_preset_values`
(battery_cell_app.py:317-360): the four fields a testing mode
overrides. -/
structure PresetOverride where
  voltage : ℚ
  temp : ℚ
  current : ℚ
  capacitance : ℚ
  deriving Repr, DecidableEq

/-- The nested dict `presets[mode][cell_type]`
(battery_cell_app.py:317-360); a missing key is a Python `KeyError`,
modelled as `none`. -/
def presets (mode cell_type : String) : Option PresetOverride :=
  if mode = "charging" then
    if cell_type = "LFP" then some ⟨3.3, 28.0, 2.5, 3200⟩
    else if cell_type = "NMC" then some ⟨3.8, 30.0, 3.0, 3400⟩
    else none
  else if mode = "discharging" then
    if cell_type = "LFP" then some ⟨3.1, 35.0, 4.0, 2800⟩
    else if cell_type = "NMC" then some ⟨3.4, 38.0, 4.5, 3000⟩
    else none
  else if mode = "performance" then
    if cell_type = "LFP" then some ⟨3.25, 45.0, 6.0, 3000⟩
    else if cell_type = "NMC" then some ⟨3.7, 42.0, 7.0, 3200⟩
    else none
  else none

/-- `get_preset_values(mode, cell_type)` (battery_cell_app.py:315-368):
`{**base_values, **preset_values}` where `base_values =
get_default_values(cell_type)`, so the preset overrides `voltage`,
`temp`, `current`, `capacitance` and keeps `max_voltage`/`min_voltage`
from the base. -/
def get_preset_values (mode cell_type : String) (r : RandSamples) :
    Option DefaultValues :=
  match presets mode cell_type with
  | none => none
  | some p =>
      some { get_default_values cell_type r with
              voltage := p.voltage
              temp := p.temp
              current := p.current
              capacitance := p.capacitance }

/-- One entry of `st.session_state.cells_data`: the per-cell dict
`{"cell_type": ..., **defaults}`. -/
structure CellData where
  cell_type : String
  voltage : ℚ
  max_voltage : ℚ
  min_voltage : ℚ
  temp : ℚ
  current : ℚ
  capacitance : ℚ
  deriving Repr, DecidableEq

/-- `{"cell_type": cell_type, **defaults}`: a cell entry built from a
type tag and generated default values. -/
def cellFromDefaults (cell_type : String) (d : DefaultValues) : CellData :=
  { cell_type := cell_type
    voltage := d.voltage
    max_voltage := d.max_voltage
    min_voltage := d.min_voltage
    temp := d.temp
    current := d.current
    capacitance := d.capacitance }

/-- Association-list lookup on the `cells_data` dict (first matching
key, as in a Python dict, whose keys are unique). -/
def dictGet (k : ℕ) : List (ℕ × CellData) → Option CellData
  | [] => none
  | kv :: d => if kv.1 = k then some kv.2 else dictGet k d

/-- `key in dict`. -/
def dictHasKey (k : ℕ) (d : List (ℕ × CellData)) : Bool :=
  d.any fun kv => kv.1 == k

/-- Python dict assignment `d[k] = v`: updates the value in place when
the key exists (keeping insertion order), otherwise appends the pair at
the end. -/
def dictSet (k : ℕ) (v : CellData) (d : List (ℕ × CellData)) :
    List (ℕ × CellData) :=
  if dictHasKey k d then
    d.map fun kv => if kv.1 = k then (k, v) else kv
  else
    d ++ [(k, v)]

/-- `if key in d: del d[key]` (battery_cell_app.py:399-400): removes
the entry with the given key; on an absent key `eraseP` is already the
identity, which matches the guarded `del`. -/
def dictDel (k : ℕ) (d : List (ℕ × CellData)) : List (ℕ × CellData) :=
  d.eraseP fun kv => kv.1 == k

/-- The session state the store operations touch: the configured slot
count and the `cells_data` dict keyed by slot number (`"cell_i" ↦ i`,
1-based). -/
structure SessionState where
  num_cells : ℕ
  cells_data : List (ℕ × CellData)
  deriving Repr, DecidableEq

/-- `update_cell_count(new_count)` (battery_cell_app.py:381-400).
`samples i` is the randomness drawn by the `get_default_values` call of
loop iteration `i` when growing. -/
def update_cell_count (new_count : ℕ) (samples : ℕ → RandSamples)
    (s : SessionState) : SessionState :=
  let old_count := s.num_cells
  let data :=
    if new_count > old_count then
      (List.range' old_count (new_count - old_count)).foldl
        (fun d i =>
          dictSet (i + 1)
            (cellFromDefaults "NMC" (get_default_values "NMC" (samples i))) d)
        s.cells_data
    else if new_count < old_count then
      (List.range' new_count (old_count - new_count)).foldl
        (fun d i => dictDel (i + 1) d) s.cells_data
    else
      s.cells_data
  { num_cells := new_count, cells_data := data }

/-- Well-formedness of the session state, maintained by the app: the
dict holds exactly the slots `1..num_cells`, in slot order. -/
def WellFormed (s : SessionState) : Prop :=
  s.cells_data.map Prod.fst = List.range' 1 s.num_cells

/-- The out-of-range condition used by the insights tab
(battery_cell_app.py:865) and by the CSV `Voltage_Status` column
(battery_cell_app.py:426): strictly below `min_voltage` or strictly
above `max_voltage`. -/
def isOutOfRange (d : CellData) : Prop :=
  d.voltage < d.min_voltage ∨ d.voltage > d.max_voltage

instance decIsOutOfRange (d : CellData) : Decidable (isOutOfRange d) :=
  inferInstanceAs (Decidable (d.voltage < d.min_voltage ∨ d.voltage > d.max_voltage))

/-- Decimal digit characters of `n`, most significant first (the
rendering of an `int` in an f-string or a CSV cell). -/
def renderNat (n : ℕ) : List Char :=
  if h : n < 10 then [Char.ofNat (48 + n)]
  else renderNat (n / 10) ++ [Char.ofNat (48 + n % 10)]
decreasing_by exact Nat.div_lt_self (by omega) (by omega)

/-- Reading a decimal digit string back into a number. -/
def parseNat (cs : List Char) : ℕ :=
  cs.foldl (fun a c => a * 10 + (c.toNat - 48)) 0

/-- The display label `f"Cell {n}"`. -/
def cellLabel (n : ℕ) : String :=
  "Cell " ++ ⟨renderNat n⟩

/-- The `out_of_range_cells` computation of the insights tab
(battery_cell_app.py:863-866): iterate `enumerate(cells_data.items())`
and collect the label `f"Cell {i+1}"` of every position `i` whose data
is out of range. -/
def out_of_range_cells (cells : List (ℕ × CellData)) : List String :=
  (cells.enum).filterMap fun p =>
    if isOutOfRange p.2.2 then some (cellLabel (p.1 + 1)) else none

/-- Concrete one-slot state used to witness the store theorems. -/
def oneCellState : SessionState :=
  ⟨1, [(1, cellFromDefaults "LFP" (get_default_values "LFP" ⟨30, 2, 3000⟩))]⟩

/-- Modelled from the spec: the curve simulator (`charge_curve`) of
spec §4.2 has no implementation in `src/battery_cell_app.py`; this
definition follows the spec's words. `t_end = capacity_mAh /
(current_A * 1000)`; 100 evenly spaced sample times over `[0, t_end]`;
voltage `v_start + (v_max - v_start) / (1 + exp (-12 * (t / t_end -
0.5)))` plus per-sample noise, clamped order-independently into
`[min v_start v_max, max v_start v_max]`. The transcendental `exp` and
the Gaussian noise draws are passed in as explicit functions `rexp`
and `noise` (the spec constrains neither pointwise, and the clamp
makes the stated properties independent of their values). -/
def charge_curve (rexp : ℚ → ℚ) (noise : ℕ → ℚ)
    (v_start v_max capacity_mAh current_A : ℚ) : List (ℚ × ℚ) :=
  let t_end := capacity_mAh / (current_A * 1000)
  let lo := min v_start v_max
  let hi := max v_start v_max
  (List.range 100).map fun i : ℕ =>
    let t := t_end * (i : ℚ) / 99
    let v := v_start + (v_max - v_start) / (1 + rexp (-(12 * (t / t_end - 1 / 2))))
    (t, max lo (min hi (v + noise i)))

/-- Modelled from the spec: the mirror `discharge_curve` of spec §4.2,
also absent from `src/`: voltage `v_min + (v_max - v_min) /
(1 + exp (12 * (t / t_end - 0.5)))`, same sampling, noise and clamp
policy. -/
def discharge_curve (rexp : ℚ → ℚ) (noise : ℕ → ℚ)
    (v_max v_min capacity_mAh current_A : ℚ) : List (ℚ × ℚ) :=
  let t_end := capacity_mAh / (current_A * 1000)
  let lo := min v_min v_max
  let hi := max v_min v_max
  (List.range 100).map fun i : ℕ =>
    let t := t_end * (i : ℚ) / 99
    let v := v_min + (v_max - v_min) / (1 + rexp (12 * (t / t_end - 1 / 2)))
    (t, max lo (min hi (v + noise i)))

/-- The sample-list contract of spec §8 for a generated curve: exactly
100 samples, strictly increasing times within `[0, t_end]`, and every
voltage inside the clamp band `[lo, hi]`. -/
def curveSamplesOK (l : List (ℚ × ℚ)) (t_end lo hi : ℚ) : Prop :=
  l.length = 100 ∧
    List.Pairwise (· < ·) (l.map Prod.fst) ∧
    ∀ p ∈ l, 0 ≤ p.1 ∧ p.1 ≤ t_end ∧ lo ≤ p.2 ∧ p.2 ≤ hi

/-- The rendering of an `int` (possibly negative) in a CSV cell. -/
def renderInt (z : ℤ) : List Char :=
  if z < 0 then '-' :: renderNat z.natAbs else renderNat z.toNat

/-- The rendering of a rational value in a CSV cell, as
`numerator/denominator`. (Python prints floats in decimal; the exact
decimal shape is irrelevant to the round-trip claim, which only needs
the numeric cells to be free of separators, so the exact-rational model
renders `num/den`.) -/
def renderRat (q : ℚ) : List Char :=
  renderInt q.num ++ '/' :: renderNat q.den

/-- A CSV cell that cannot break the table shape: it contains neither
the column separator nor the line separator. -/
def fieldSafe (cs : List Char) : Prop :=
  ∀ c ∈ cs, c ≠ ',' ∧ c ≠ '\n'

instance decFieldSafe (cs : List Char) : Decidable (fieldSafe cs) :=
  inferInstanceAs (Decidable (∀ c ∈ cs, c ≠ ',' ∧ c ≠ '\n'))

/-- One data row assembled by `export_to_csv`
(battery_cell_app.py:414-427), in column order. -/
structure ExportRow where
  timestamp : List Char
  bench_name : List Char
  group_name : List Char
  cell_slot : ℕ
  cell_type : String
  temperature_c : ℚ
  voltage_v : ℚ
  current_a : ℚ
  capacitance_mAh : ℚ
  max_voltage_v : ℚ
  min_voltage_v : ℚ
  voltage_status : List Char
  deriving Repr, DecidableEq

/-- The dict appended for one cell by `export_to_csv`
(battery_cell_app.py:414-427); `Voltage_Status` is `Out_of_Range`
exactly under the strict out-of-range condition. -/
def mkExportRow (ts bench group : List Char) (slot : ℕ) (data : CellData) :
    ExportRow :=
  { timestamp := ts
    bench_name := bench
    group_name := group
    cell_slot := slot
    cell_type := data.cell_type
    temperature_c := data.temp
    voltage_v := data.voltage
    current_a := data.current
    capacitance_mAh := data.capacitance
    max_voltage_v := data.max_voltage
    min_voltage_v := data.min_voltage
    voltage_status :=
      if isOutOfRange data then "Out_of_Range".data else "Normal".data }

/-- The row-building loop of `export_to_csv`
(battery_cell_app.py:410-427): for each slot `1..num_cells` present in
`cells_data`, one row. -/
def build_export_rows (ts bench group : List Char) (s : SessionState) :
    List ExportRow :=
  (List.range s.num_cells).filterMap fun i =>
    (dictGet (i + 1) s.cells_data).map (mkExportRow ts bench group (i + 1))

/-- `export_to_csv()` (battery_cell_app.py:402-429): `None` when
`cells_data` is empty, otherwise the table of rows. -/
def export_to_csv (ts bench group : List Char) (s : SessionState) :
    Option (List ExportRow) :=
  if s.cells_data.isEmpty then none
  else some (build_export_rows ts bench group s)

/-- The cells of one CSV line, in the column order of the export
dict. -/
def rowFields (r : ExportRow) : List (List Char) :=
  [r.timestamp, r.bench_name, r.group_name, renderNat r.cell_slot,
    r.cell_type.data, renderRat r.temperature_c, renderRat r.voltage_v,
    renderRat r.current_a, renderRat r.capacitance_mAh,
    renderRat r.max_voltage_v, renderRat r.min_voltage_v, r.voltage_status]

/-- The header cells of `DataFrame.to_csv(index=False)` on the export
table: the dict keys, in order. -/
def csvHeaderFields : List (List Char) :=
  ["Timestamp".data, "Bench_Name".data, "Group_Name".data, "Cell_Slot".data,
    "Cell_Type".data, "Temperature_C".data, "Voltage_V".data,
    "Current_A".data, "Capacitance_mAh".data, "Max_Voltage_V".data,
    "Min_Voltage_V".data, "Voltage_Status".data]

/-- Joining pieces with a separator character (comma inside a line,
newline between lines). -/
def joinSep (sep : Char) : List (List Char) → List Char
  | [] => []
  | [p] => p
  | p :: ps => p ++ sep :: joinSep sep ps

/-- Splitting on a separator character, the inverse of `joinSep` on
separator-free pieces. -/
def splitSep (sep : Char) : List Char → List (List Char)
  | [] => [[]]
  | c :: cs =>
      if c = sep then [] :: splitSep sep cs
      else
        match splitSep sep cs with
        | [] => [[c]]
        | p :: ps => (c :: p) :: ps

/-- `DataFrame.to_csv(index=False)` on the export table: the header
line followed by one comma-separated line per row. -/
def to_csv (rows : List ExportRow) : List Char :=
  joinSep '\n' ((csvHeaderFields :: rows.map rowFields).map (joinSep ','))

/-- Generic CSV parsing of the exported text: split into lines, drop
the header line, split each remaining line into cells. -/
def parse_csv (text : List Char) : List (List (List Char)) :=
  ((splitSep '\n' text).drop 1).map (splitSep ',')

/-- Reading the `(Cell_Slot, Cell_Type)` pair back out of one parsed
row (columns 3 and 4). -/
def rowSlotType (fields : List (List Char)) : ℕ × String :=
  (parseNat (fields.getD 3 []), ⟨fields.getD 4 []⟩)

/-- The outcome the "Export to CSV" sidebar button shows the user. -/
inductive ExportOutcome where
  | download (csv : List Char)
  | error (msg : List Char)
  deriving Repr, DecidableEq

/-- The "Export to CSV" button handler (battery_cell_app.py:636-651):
offer the rendered CSV for download when `export_to_csv` returned a
table, otherwise show the error message. -/
def export_csv_button (ts bench group : List Char) (s : SessionState) :
    ExportOutcome :=
  match export_to_csv ts bench group s with
  | some rows => ExportOutcome.download (to_csv rows)
  | none => ExportOutcome.error "No data available to export".data

end BatteryApp

namespace BatteryApp

/-- C1: for both cell types the deterministic voltage fields of
`get_default_values` are the fixed constants of the table
(LFP: 3.2 / 3.4 / 2.8; NMC: 3.6 / 4.0 / 3.2) and satisfy
`min_voltage ≤ voltage ≤ max_voltage`, for every state of the random
source. -/
theorem c1_default_voltage_constants (r : RandSamples) :
    ((get_default_values "LFP" r).voltage = 3.2 ∧
      (get_default_values "LFP" r).max_voltage = 3.4 ∧
      (get_default_values "LFP" r).min_voltage = 2.8 ∧
      (get_default_values "LFP" r).min_voltage ≤ (get_default_values "LFP" r).voltage ∧
      (get_default_values "LFP" r).voltage ≤ (get_default_values "LFP" r).max_voltage) ∧
    ((get_default_values "NMC" r).voltage = 3.6 ∧
      (get_default_values "NMC" r).max_voltage = 4.0 ∧
      (get_default_values "NMC" r).min_voltage = 3.2 ∧
      (get_default_values "NMC" r).min_voltage ≤ (get_default_values "NMC" r).voltage ∧
      (get_default_values "NMC" r).voltage ≤ (get_default_values "NMC" r).max_voltage) := by
  refine ⟨⟨?_, ?_, ?_, ?_, ?_⟩, ⟨?_, ?_, ?_, ?_, ?_⟩⟩ <;>
    simp [get_default_values] <;> norm_num

/-- C5: for every mode in charging/discharging/performance and both
cell types, `get_preset_values` returns the fixed scenario constants of
the table in `voltage`/`temp`/`current`/`capacitance`, and keeps
`max_voltage`/`min_voltage` equal to those of
`get_default_values(cell_type)`, for every state of the random
source. -/
theorem c5_preset_values (r : RandSamples) :
    get_preset_values "charging" "LFP" r =
      some { voltage := 3.3, temp := 28.0, current := 2.5, capacitance := 3200,
             max_voltage := (get_default_values "LFP" r).max_voltage,
             min_voltage := (get_default_values "LFP" r).min_voltage } ∧
    get_preset_values "charging" "NMC" r =
      some { voltage := 3.8, temp := 30.0, current := 3.0, capacitance := 3400,
             max_voltage := (get_default_values "NMC" r).max_voltage,
             min_voltage := (get_default_values "NMC" r).min_voltage } ∧
    get_preset_values "discharging" "LFP" r =
      some { voltage := 3.1, temp := 35.0, current := 4.0, capacitance := 2800,
             max_voltage := (get_default_values "LFP" r).max_voltage,
             min_voltage := (get_default_values "LFP" r).min_voltage } ∧
    get_preset_values "discharging" "NMC" r =
      some { voltage := 3.4, temp := 38.0, current := 4.5, capacitance := 3000,
             max_voltage := (get_default_values "NMC" r).max_voltage,
             min_voltage := (get_default_values "NMC" r).min_voltage } ∧
    get_preset_values "performance" "LFP" r =
      some { voltage := 3.25, temp := 45.0, current := 6.0, capacitance := 3000,
             max_voltage := (get_default_values "LFP" r).max_voltage,
             min_voltage := (get_default_values "LFP" r).min_voltage } ∧
    get_preset_values "performance" "NMC" r =
      some { voltage := 3.7, temp := 42.0, current := 7.0, capacitance := 3200,
             max_voltage := (get_default_values "NMC" r).max_voltage,
             min_voltage := (get_default_values "NMC" r).min_voltage } := by
  refine ⟨?_, ?_, ?_, ?_, ?_, ?_⟩ <;> rfl

/-- C6 counterexample: `get_default_values` called with the unknown
cell type `"SODIUM"` does not fail; it returns the NMC defaults (here
at concrete random samples 30 / 2 / 3000), refuting that an invalid
type fails with `InvalidArgument`. -/
theorem c6_counterexample :
    get_default_values "SODIUM" ⟨30, 2, 3000⟩ =
      { voltage := 3.6, max_voltage := 4.0, min_voltage := 3.2,
        temp := 30, current := 2, capacitance := 3000 } := by
  have h : ("SODIUM" : String) ≠ "LFP" := by decide
  norm_num [get_default_values, h, roundTo]

/-- C6 amended: `get_default_values` called with any value other than
`"LFP"` (in particular any value outside LFP/NMC) does not fail: it
falls into the `else` branch and returns the NMC defaults. -/
theorem c6_amended_unknown_type_gives_nmc (cell_type : String)
    (r : RandSamples) (h : cell_type ≠ "LFP") :
    get_default_values cell_type r = get_default_values "NMC" r := by
  simp [get_default_values, h]

/-- Witness for `c6_amended_unknown_type_gives_nmc` at the concrete
type `"SODIUM"`. -/
theorem c6_amended_witness :
    "SODIUM" ≠ "LFP" ∧
      get_default_values "SODIUM" ⟨1, 1, 1⟩ = get_default_values "NMC" ⟨1, 1, 1⟩ :=
  ⟨by decide, c6_amended_unknown_type_gives_nmc "SODIUM" ⟨1, 1, 1⟩ (by decide)⟩

theorem round_bounds (z₁ z₂ : ℤ) (q : ℚ) (h₁ : (z₁ : ℚ) ≤ q)
    (h₂ : q ≤ (z₂ : ℚ)) : z₁ ≤ round q ∧ round q ≤ z₂ := by
  rw [round_eq]
  refine ⟨Int.le_floor.mpr (by linarith), ?_⟩
  have hf : (⌊q + 1 / 2⌋ : ℚ) ≤ q + 1 / 2 := Int.floor_le _
  have : (⌊q + 1 / 2⌋ : ℚ) < (z₂ : ℚ) + 1 := by linarith
  exact Int.lt_add_one_iff.mp (by exact_mod_cast this)

theorem roundTo_bounds (d : ℕ) (z₁ z₂ : ℤ) (q : ℚ) (h₁ : (z₁ : ℚ) ≤ q)
    (h₂ : q ≤ (z₂ : ℚ)) : (z₁ : ℚ) ≤ roundTo d q ∧ roundTo d q ≤ (z₂ : ℚ) := by
  have h10 : (0 : ℚ) < 10 ^ d := by positivity
  have hb := round_bounds (z₁ * 10 ^ d) (z₂ * 10 ^ d) (q * 10 ^ d)
    (by push_cast; exact mul_le_mul_of_nonneg_right h₁ h10.le)
    (by push_cast; exact mul_le_mul_of_nonneg_right h₂ h10.le)
  have hb₁ : (z₁ : ℚ) * 10 ^ d ≤ (round (q * 10 ^ d) : ℚ) := by
    exact_mod_cast hb.1
  have hb₂ : (round (q * 10 ^ d) : ℚ) ≤ (z₂ : ℚ) * 10 ^ d := by
    exact_mod_cast hb.2
  rw [roundTo]
  constructor
  · rw [le_div_iff₀ h10]; exact hb₁
  · rw [div_le_iff₀ h10]; exact hb₂

theorem get_default_values_temp (cell_type : String) (r : RandSamples) :
    (get_default_values cell_type r).temp = roundTo 1 r.temp_raw := by
  unfold get_default_values; split <;> rfl

theorem get_default_values_current (cell_type : String) (r : RandSamples) :
    (get_default_values cell_type r).current = roundTo 2 r.current_raw := by
  unfold get_default_values; split <;> rfl

theorem get_default_values_capacitance (cell_type : String) (r : RandSamples) :
    (get_default_values cell_type r).capacitance = roundTo 0 r.cap_raw := by
  unfold get_default_values; split <;> rfl

/-- C7: whenever the raw uniform samples are in their documented ranges,
the randomized fields of `get_default_values` are in range: temperature
in [25, 40] and a multiple of 0.1, current in [1, 5] and a multiple of
0.01, and capacitance an integer, lying in [2500, 3500] for LFP and in
[2800, 3800] for NMC when the respective raw draw does. -/
theorem c7_randomized_field_ranges (cell_type : String) (r : RandSamples)
    (ht : 25 ≤ r.temp_raw ∧ r.temp_raw ≤ 40)
    (hc : 1 ≤ r.current_raw ∧ r.current_raw ≤ 5) :
    (25 ≤ (get_default_values cell_type r).temp ∧
        (get_default_values cell_type r).temp ≤ 40 ∧
        ∃ z : ℤ, (get_default_values cell_type r).temp = (z : ℚ) / 10) ∧
      (1 ≤ (get_default_values cell_type r).current ∧
        (get_default_values cell_type r).current ≤ 5 ∧
        ∃ z : ℤ, (get_default_values cell_type r).current = (z : ℚ) / 100) ∧
      (∃ z : ℤ, (get_default_values cell_type r).capacitance = (z : ℚ)) ∧
      (2500 ≤ r.cap_raw → r.cap_raw ≤ 3500 →
        2500 ≤ (get_default_values cell_type r).capacitance ∧
          (get_default_values cell_type r).capacitance ≤ 3500) ∧
      (2800 ≤ r.cap_raw → r.cap_raw ≤ 3800 →
        2800 ≤ (get_default_values cell_type r).capacitance ∧
          (get_default_values cell_type r).capacitance ≤ 3800) := by
  rw [get_default_values_temp, get_default_values_current,
    get_default_values_capacitance]
  have h25 : ((25 : ℤ) : ℚ) = 25 := by norm_num
  refine ⟨?_, ?_, ?_, ?_, ?_⟩
  · have hb := roundTo_bounds 1 25 40 r.temp_raw (by exact_mod_cast ht.1)
      (by exact_mod_cast ht.2)
    exact ⟨by exact_mod_cast hb.1, by exact_mod_cast hb.2,
      round (r.temp_raw * 10 ^ 1), by rw [roundTo]; norm_num⟩
  · have hb := roundTo_bounds 2 1 5 r.current_raw (by exact_mod_cast hc.1)
      (by exact_mod_cast hc.2)
    exact ⟨by exact_mod_cast hb.1, by exact_mod_cast hb.2,
      round (r.current_raw * 10 ^ 2), by rw [roundTo]; norm_num⟩
  · exact ⟨round (r.cap_raw * 10 ^ 0), by rw [roundTo]; norm_num⟩
  · intro h₁ h₂
    have hb := roundTo_bounds 0 2500 3500 r.cap_raw (by exact_mod_cast h₁)
      (by exact_mod_cast h₂)
    exact ⟨by exact_mod_cast hb.1, by exact_mod_cast hb.2⟩
  · intro h₁ h₂
    have hb := roundTo_bounds 0 2800 3800 r.cap_raw (by exact_mod_cast h₁)
      (by exact_mod_cast h₂)
    exact ⟨by exact_mod_cast hb.1, by exact_mod_cast hb.2⟩

/-- Witness for `c7_randomized_field_ranges` at LFP samples
30 / 2 / 3000. -/
theorem c7_witness :
    ((25 : ℚ) ≤ 30 ∧ (30 : ℚ) ≤ 40) ∧ ((1 : ℚ) ≤ 2 ∧ (2 : ℚ) ≤ 5) ∧
      (25 ≤ (get_default_values "LFP" ⟨30, 2, 3000⟩).temp ∧
          (get_default_values "LFP" ⟨30, 2, 3000⟩).temp ≤ 40 ∧
          ∃ z : ℤ, (get_default_values "LFP" ⟨30, 2, 3000⟩).temp = (z : ℚ) / 10) ∧
        (1 ≤ (get_default_values "LFP" ⟨30, 2, 3000⟩).current ∧
          (get_default_values "LFP" ⟨30, 2, 3000⟩).current ≤ 5 ∧
          ∃ z : ℤ, (get_default_values "LFP" ⟨30, 2, 3000⟩).current = (z : ℚ) / 100) ∧
        (∃ z : ℤ, (get_default_values "LFP" ⟨30, 2, 3000⟩).capacitance = (z : ℚ)) ∧
        (2500 ≤ (3000 : ℚ) → (3000 : ℚ) ≤ 3500 →
          2500 ≤ (get_default_values "LFP" ⟨30, 2, 3000⟩).capacitance ∧
            (get_default_values "LFP" ⟨30, 2, 3000⟩).capacitance ≤ 3500) ∧
        (2800 ≤ (3000 : ℚ) → (3000 : ℚ) ≤ 3800 →
          2800 ≤ (get_default_values "LFP" ⟨30, 2, 3000⟩).capacitance ∧
            (get_default_values "LFP" ⟨30, 2, 3000⟩).capacitance ≤ 3800) :=
  ⟨by norm_num, by norm_num,
    c7_randomized_field_ranges "LFP" ⟨30, 2, 3000⟩ (by norm_num) (by norm_num)⟩

theorem dictGet_append (k : ℕ) (l r : List (ℕ × CellData)) :
    dictGet k (l ++ r) =
      match dictGet k l with
      | some v => some v
      | none => dictGet k r := by
  induction l with
  | nil => simp [dictGet]
  | cons kv l ih =>
      simp only [List.cons_append, dictGet]
      split
      · rfl
      · exact ih

theorem dictGet_eq_none_iff (k : ℕ) (d : List (ℕ × CellData)) :
    dictGet k d = none ↔ k ∉ d.map Prod.fst := by
  induction d with
  | nil => simp [dictGet]
  | cons kv d ih =>
      simp only [dictGet, List.map_cons, List.mem_cons]
      split
      · simp_all
      · simp_all [eq_comm]

theorem dictGet_mem_keys {k : ℕ} {d : List (ℕ × CellData)} {v : CellData}
    (h : dictGet k d = some v) : k ∈ d.map Prod.fst := by
  by_contra hk
  rw [← dictGet_eq_none_iff] at hk
  rw [h] at hk
  exact Option.noConfusion hk

theorem dictGet_map_entries (f : ℕ → CellData) (a m k : ℕ) :
    dictGet k ((List.range' a m).map fun i => (i + 1, f i)) =
      if a + 1 ≤ k ∧ k ≤ a + m then some (f (k - 1)) else none := by
  induction m generalizing a with
  | zero =>
      simp only [List.range'_zero, List.map_nil, dictGet]
      rw [if_neg (by omega)]
  | succ m ih =>
      rw [List.range'_succ]
      simp only [List.map_cons, dictGet]
      rcases eq_or_ne (a + 1) k with h | h
      · rw [if_pos h, if_pos (by omega)]
        have hk : k - 1 = a := by omega
        rw [hk]
      · rw [if_neg h, ih]
        split_ifs with h₁ h₂ h₂ <;> first | rfl | omega

theorem dictHasKey_eq_false_iff (k : ℕ) (d : List (ℕ × CellData)) :
    dictHasKey k d = false ↔ k ∉ d.map Prod.fst := by
  simp only [dictHasKey, List.any_eq_false, beq_iff_eq, List.mem_map, not_exists]
  constructor
  · rintro h x ⟨hx, hxk⟩
    exact h x hx hxk
  · intro h x hx hxk
    exact h x ⟨hx, hxk⟩

theorem foldl_dictSet_absent (f : ℕ → CellData) (a m : ℕ)
    (d : List (ℕ × CellData))
    (h : ∀ i ∈ List.range' a m, (i + 1) ∉ d.map Prod.fst) :
    (List.range' a m).foldl (fun acc i => dictSet (i + 1) (f i) acc) d =
      d ++ (List.range' a m).map fun i => (i + 1, f i) := by
  induction m generalizing a d with
  | zero =>
      simp only [List.range'_zero, List.foldl_nil, List.map_nil, List.append_nil]
  | succ m ih =>
      rw [List.range'_succ]
      simp only [List.foldl_cons, List.map_cons]
      have hstep : dictSet (a + 1) (f a) d = d ++ [(a + 1, f a)] := by
        rw [dictSet,
          if_neg (by
            rw [Bool.not_eq_true, dictHasKey_eq_false_iff]
            exact h a (by rw [List.range'_succ]; exact List.mem_cons_self _ _))]
      rw [hstep, ih (a + 1) _ ?_, List.append_assoc, List.singleton_append]
      intro i hi
      have hi' : a + 1 ≤ i ∧ i < a + 1 + m := List.mem_range'_1.mp hi
      simp only [List.map_append, List.mem_append, List.map_cons]
      push_neg
      refine ⟨h i (List.mem_range'_1.mpr (by omega)), ?_⟩
      simp
      omega

theorem map_fst_filter_key (q : ℕ → Bool) (d : List (ℕ × CellData)) :
    (d.filter fun kv => q kv.1).map Prod.fst = (d.map Prod.fst).filter q := by
  induction d with
  | nil => rfl
  | cons kv d ih =>
      simp only [List.filter_cons, List.map_cons]
      rcases hq : q kv.1 with _ | _ <;> simp [hq, ih]

theorem dictDel_eq_filter (k : ℕ) (d : List (ℕ × CellData))
    (h : (d.map Prod.fst).Nodup) :
    dictDel k d = d.filter fun kv => !(kv.1 == k) := by
  induction d with
  | nil => rfl
  | cons kv d ih =>
      simp only [List.map_cons, List.nodup_cons] at h
      rw [dictDel, List.eraseP_cons, List.filter_cons]
      by_cases hkk : kv.1 = k
      · have hk : (kv.1 == k : Bool) = true := by simpa using hkk
        rw [hk]
        simp only [cond_true, Bool.not_true, Bool.false_eq_true, if_false]
        rw [List.filter_eq_self.mpr]
        intro kv' hkv'
        have h1 : kv'.1 ∈ d.map Prod.fst := List.mem_map_of_mem Prod.fst hkv'
        have h2 : kv'.1 ≠ kv.1 := fun hc => h.1 (hc ▸ h1)
        simpa [hkk] using h2
      · have hk : (kv.1 == k : Bool) = false := by simpa using hkk
        rw [hk]
        simp only [cond_false, Bool.not_false, if_true]
        rw [← dictDel, ih h.2]

theorem dictGet_filter_key (k : ℕ) (q : ℕ → Bool) (d : List (ℕ × CellData)) :
    dictGet k (d.filter fun kv => q kv.1) =
      if q k then dictGet k d else none := by
  induction d with
  | nil => cases hq : q k <;> simp [dictGet, hq]
  | cons kv d ih =>
      rw [List.filter_cons]
      by_cases hk : kv.1 = k
      · subst hk
        cases hq : q kv.1
        · simp only [Bool.false_eq_true, if_false]
          rw [ih, hq]
          simp
        · simp only [if_true]
          simp [dictGet]
      · cases hq : q kv.1
        · simp only [Bool.false_eq_true, if_false]
          rw [ih]
          cases hqk : q k
          · simp
          · simp [dictGet, hk]
        · simp only [if_true]
          show dictGet k (kv :: List.filter _ d) = _
          simp only [dictGet, if_neg hk]
          exact ih

theorem foldl_dictDel_eq_filter (ks : List ℕ) (d : List (ℕ × CellData))
    (h : (d.map Prod.fst).Nodup) :
    ks.foldl (fun acc k => dictDel k acc) d =
      d.filter fun kv => decide (kv.1 ∉ ks) := by
  induction ks generalizing d with
  | nil => simp
  | cons k ks ih =>
      simp only [List.foldl_cons]
      rw [dictDel_eq_filter k d h, ih]
      · rw [List.filter_filter]
        apply List.filter_congr
        intro kv _
        rcases Decidable.em (kv.1 = k) with h₁ | h₁ <;>
          rcases Decidable.em (kv.1 ∈ ks) with h₂ | h₂ <;> simp [h₁, h₂]
      · exact ((List.filter_sublist d).map Prod.fst).nodup h

theorem map_fst_entries (f : ℕ → CellData) (a m : ℕ) :
    ((List.range' a m).map fun i => (i + 1, f i)).map Prod.fst =
      List.range' (a + 1) m := by
  induction m generalizing a with
  | zero => simp
  | succ m ih => rw [List.range'_succ, List.range'_succ, List.map_cons,
      List.map_cons, ih]

theorem map_succ_range' (a m : ℕ) :
    (List.range' a m).map (· + 1) = List.range' (a + 1) m := by
  induction m generalizing a with
  | zero => simp
  | succ m ih => rw [List.range'_succ, List.range'_succ, List.map_cons, ih]

/-- C3: on a well-formed state, `update_cell_count n` sets the count to
`n`, keeps the state well formed, and acts on the slots as the frame
claim states: a slot within both the old and the new count keeps its
record (all fields) unchanged, a slot in `old+1..n` is newly populated
with the NMC type-derived defaults of that loop iteration, and every
slot above `n` is absent. -/
theorem c3_update_cell_count_frame (n : ℕ) (samples : ℕ → RandSamples)
    (s : SessionState) (hwf : WellFormed s) :
    (update_cell_count n samples s).num_cells = n ∧
      WellFormed (update_cell_count n samples s) ∧
      ∀ k : ℕ,
        dictGet k (update_cell_count n samples s).cells_data =
          if k ≤ n ∧ k ≤ s.num_cells then dictGet k s.cells_data
          else if k ≤ n then
            some (cellFromDefaults "NMC"
              (get_default_values "NMC" (samples (k - 1))))
          else none := by
  have hwf' : s.cells_data.map Prod.fst = List.range' 1 s.num_cells := hwf
  have hget_none : ∀ k, s.num_cells < k → dictGet k s.cells_data = none := by
    intro k hk
    rw [dictGet_eq_none_iff, hwf', List.mem_range'_1]
    omega
  have hget_zero : dictGet 0 s.cells_data = none := by
    rw [dictGet_eq_none_iff, hwf', List.mem_range'_1]
    omega
  rcases Nat.lt_trichotomy s.num_cells n with hgrow | heq | hshrink
  · -- grow: n > num_cells
    have hdata : (update_cell_count n samples s).cells_data =
        s.cells_data ++
          (List.range' s.num_cells (n - s.num_cells)).map fun i =>
            (i + 1,
              cellFromDefaults "NMC" (get_default_values "NMC" (samples i))) := by
      show (if n > s.num_cells then _ else _) = _
      rw [if_pos hgrow]
      apply foldl_dictSet_absent
      intro i hi
      have hi' := List.mem_range'_1.mp hi
      rw [hwf', List.mem_range'_1]
      omega
    refine ⟨rfl, ?_, ?_⟩
    · show (update_cell_count n samples s).cells_data.map Prod.fst =
        List.range' 1 n
      rw [hdata, List.map_append, hwf', map_fst_entries]
      have hr := List.range'_append 1 s.num_cells (n - s.num_cells) 1
      simp only [one_mul] at hr
      rw [show s.num_cells + 1 = 1 + s.num_cells from by omega, hr]
      congr 1
      omega
    · intro k
      rw [hdata, dictGet_append, dictGet_map_entries]
      cases hget : dictGet k s.cells_data with
      | some v =>
          have hmem : k ∈ s.cells_data.map Prod.fst := dictGet_mem_keys hget
          rw [hwf', List.mem_range'_1] at hmem
          rw [if_pos (show k ≤ n ∧ k ≤ s.num_cells from ⟨by omega, by omega⟩)]
      | none =>
          have hnot : k ∉ s.cells_data.map Prod.fst := by
            rw [← dictGet_eq_none_iff]; exact hget
          rw [hwf', List.mem_range'_1] at hnot
          split_ifs with h₁ h₂ h₃ h₃ <;> first | rfl | omega
  · -- equal: n = num_cells, neither branch fires
    have hdata : (update_cell_count n samples s).cells_data = s.cells_data := by
      show (if n > s.num_cells then _ else if n < s.num_cells then _ else _) = _
      rw [if_neg (by omega), if_neg (by omega)]
    refine ⟨rfl, ?_, ?_⟩
    · show (update_cell_count n samples s).cells_data.map Prod.fst =
        List.range' 1 n
      rw [hdata, hwf', heq]
    · intro k
      rw [hdata]
      split_ifs with h₁ h₂ <;>
        first | rfl | omega | exact hget_none k (by omega)
  · -- shrink: n < num_cells
    have hnodup : (s.cells_data.map Prod.fst).Nodup := by
      rw [hwf']; exact List.nodup_range' _ _
    have hdata : (update_cell_count n samples s).cells_data =
        s.cells_data.filter fun kv =>
          decide (kv.1 ∉ List.range' (n + 1) (s.num_cells - n)) := by
      show (if n > s.num_cells then _ else if n < s.num_cells then _ else _) = _
      rw [if_neg (by omega), if_pos hshrink]
      calc (List.range' n (s.num_cells - n)).foldl
            (fun d i => dictDel (i + 1) d) s.cells_data
          = ((List.range' n (s.num_cells - n)).map (· + 1)).foldl
              (fun d k => dictDel k d) s.cells_data := by
            rw [List.foldl_map]
        _ = (List.range' (n + 1) (s.num_cells - n)).foldl
              (fun d k => dictDel k d) s.cells_data := by
            rw [map_succ_range']
        _ = _ := foldl_dictDel_eq_filter _ _ hnodup
    refine ⟨rfl, ?_, ?_⟩
    · show (update_cell_count n samples s).cells_data.map Prod.fst =
        List.range' 1 n
      rw [hdata]
      calc (s.cells_data.filter fun kv =>
              decide (kv.1 ∉ List.range' (n + 1) (s.num_cells - n))).map Prod.fst
          = (s.cells_data.map Prod.fst).filter
              (fun x => decide (x ∉ List.range' (n + 1) (s.num_cells - n))) :=
            map_fst_filter_key
              (fun x => decide (x ∉ List.range' (n + 1) (s.num_cells - n)))
              s.cells_data
        _ = (List.range' 1 n ++ List.range' (n + 1) (s.num_cells - n)).filter
              (fun x => decide (x ∉ List.range' (n + 1) (s.num_cells - n))) := by
            rw [hwf']
            have hr := List.range'_append 1 n (s.num_cells - n) 1
            simp only [one_mul] at hr
            rw [show 1 + n = n + 1 from by omega,
              show s.num_cells - n + n = s.num_cells from by omega] at hr
            rw [hr]
        _ = List.range' 1 n := by
            rw [List.filter_append, List.filter_eq_self.mpr, List.filter_eq_nil_iff.mpr,
              List.append_nil]
            · intro x hx
              simp only [decide_eq_true_eq, Decidable.not_not]
              exact hx
            · intro x hx
              rw [List.mem_range'_1] at hx
              simp only [decide_eq_true_eq, List.mem_range'_1]
              omega
    · intro k
      rw [hdata]
      have hfk := dictGet_filter_key k
        (fun x => decide (x ∉ List.range' (n + 1) (s.num_cells - n))) s.cells_data
      rw [hfk]
      by_cases hk : k ∈ List.range' (n + 1) (s.num_cells - n)
      · rw [if_neg (by simp only [decide_eq_true_eq]; exact fun hc => hc hk)]
        rw [List.mem_range'_1] at hk
        rw [if_neg (by omega), if_neg (by omega)]
      · rw [if_pos (by simp only [decide_eq_true_eq]; exact hk)]
        rw [List.mem_range'_1] at hk
        split_ifs with h₁ h₂ <;>
          first | rfl | omega | exact hget_none k (by omega)

/-- Witness for `c3_update_cell_count_frame`: growing a well-formed
one-cell state to two cells. -/
theorem c3_witness :
    WellFormed oneCellState ∧
      ((update_cell_count 2 (fun _ => ⟨25, 1, 2600⟩) oneCellState).num_cells = 2 ∧
        WellFormed (update_cell_count 2 (fun _ => ⟨25, 1, 2600⟩) oneCellState) ∧
        ∀ k : ℕ,
          dictGet k
              (update_cell_count 2 (fun _ => ⟨25, 1, 2600⟩) oneCellState).cells_data =
            if k ≤ 2 ∧ k ≤ oneCellState.num_cells then
              dictGet k oneCellState.cells_data
            else if k ≤ 2 then
              some (cellFromDefaults "NMC" (get_default_values "NMC" ⟨25, 1, 2600⟩))
            else none) :=
  ⟨rfl, c3_update_cell_count_frame 2 (fun _ => ⟨25, 1, 2600⟩) oneCellState rfl⟩

theorem enumFrom_out_of_range_aux (cells : List (ℕ × CellData)) (a : ℕ)
    (h : cells.map Prod.fst = List.range' (a + 1) cells.length) :
    ((List.enumFrom a cells).filterMap fun p =>
        if isOutOfRange p.2.2 then some (cellLabel (p.1 + 1)) else none) =
      (cells.filter fun kv => decide (isOutOfRange kv.2)).map fun kv =>
        cellLabel kv.1 := by
  induction cells generalizing a with
  | nil => rfl
  | cons kv cells ih =>
      simp only [List.map_cons, List.length_cons, List.range'_succ, List.cons.injEq] at h
      simp only [List.enumFrom_cons, List.filterMap_cons, List.filter_cons]
      by_cases hout : isOutOfRange kv.2
      · rw [if_pos hout, if_pos (by simpa using hout), List.map_cons, h.1,
          ih (a + 1) h.2]
      · rw [if_neg hout, if_neg (by simpa using hout), ih (a + 1) h.2]

/-- C2: on a well-formed state the reported out-of-range list is
exactly the label `"Cell k"` of every slot `k` whose record is out of
range, in ascending slot order; and for any record whose voltage band
is non-degenerate, a voltage of `max_voltage + 0.01` is out of range
while voltages exactly at `max_voltage` or `min_voltage` are not. -/
theorem c2_out_of_range_cells (s : SessionState) (hwf : WellFormed s)
    (d : CellData) (hinv : d.min_voltage ≤ d.max_voltage) :
    out_of_range_cells s.cells_data =
        ((s.cells_data.filter fun kv => decide (isOutOfRange kv.2)).map fun kv =>
          cellLabel kv.1) ∧
      List.Pairwise (· < ·)
        ((s.cells_data.filter fun kv => decide (isOutOfRange kv.2)).map Prod.fst) ∧
      isOutOfRange { d with voltage := d.max_voltage + 0.01 } ∧
      ¬isOutOfRange { d with voltage := d.max_voltage } ∧
      ¬isOutOfRange { d with voltage := d.min_voltage } := by
  have hwf' : s.cells_data.map Prod.fst = List.range' 1 s.num_cells := hwf
  have hlen : s.cells_data.length = s.num_cells := by
    have := congrArg List.length hwf'
    simpa using this
  refine ⟨?_, ?_, ?_, ?_, ?_⟩
  · rw [out_of_range_cells]
    exact enumFrom_out_of_range_aux s.cells_data 0 (by rw [hwf', hlen])
  · have hsub :
        ((s.cells_data.filter fun kv => decide (isOutOfRange kv.2)).map Prod.fst).Sublist
          (s.cells_data.map Prod.fst) :=
      (List.filter_sublist s.cells_data).map Prod.fst
    refine List.Pairwise.sublist hsub ?_
    rw [hwf']
    exact List.pairwise_lt_range' _ _
  · rw [isOutOfRange]
    right
    show d.max_voltage + 0.01 > d.max_voltage
    norm_num
  · rw [isOutOfRange]
    push_neg
    exact ⟨hinv, le_refl _⟩
  · rw [isOutOfRange]
    push_neg
    exact ⟨le_refl _, hinv⟩

/-- Witness for `c2_out_of_range_cells` on the concrete one-cell state
and an LFP-banded record. -/
theorem c2_witness :
    WellFormed oneCellState ∧
      (2.8 : ℚ) ≤ 3.4 ∧
      (out_of_range_cells oneCellState.cells_data =
          ((oneCellState.cells_data.filter fun kv =>
            decide (isOutOfRange kv.2)).map fun kv => cellLabel kv.1) ∧
        List.Pairwise (· < ·)
          ((oneCellState.cells_data.filter fun kv =>
            decide (isOutOfRange kv.2)).map Prod.fst) ∧
        isOutOfRange { (⟨"LFP", 3.2, 3.4, 2.8, 30, 2, 3000⟩ : CellData) with
          voltage := (3.4 : ℚ) + 0.01 } ∧
        ¬isOutOfRange { (⟨"LFP", 3.2, 3.4, 2.8, 30, 2, 3000⟩ : CellData) with
          voltage := (3.4 : ℚ) } ∧
        ¬isOutOfRange { (⟨"LFP", 3.2, 3.4, 2.8, 30, 2, 3000⟩ : CellData) with
          voltage := (2.8 : ℚ) }) :=
  ⟨rfl, by norm_num,
    c2_out_of_range_cells oneCellState rfl ⟨"LFP", 3.2, 3.4, 2.8, 30, 2, 3000⟩
      (by norm_num)⟩

theorem charge_curve_map_fst (rexp : ℚ → ℚ) (noise : ℕ → ℚ)
    (v_start v_max c a : ℚ) :
    (charge_curve rexp noise v_start v_max c a).map Prod.fst =
      (List.range 100).map fun i : ℕ => c / (a * 1000) * (i : ℚ) / 99 := by
  simp only [charge_curve, List.map_map]
  rfl

/-- C8 counterexample: at `capacity_mAh = 0` (allowed by the claim,
which only requires `capacity_mAh ≥ 0`) every sample time is `0`, so
the times are not strictly increasing. -/
theorem c8_counterexample :
    ¬List.Pairwise (· < ·)
      ((charge_curve id (fun _ => 0) 3 4 0 1).map Prod.fst) := by
  rw [charge_curve_map_fst]
  intro h
  have h' := List.pairwise_map.mp h
  have h01 := List.pairwise_iff_get.mp h' ⟨0, by norm_num⟩ ⟨1, by norm_num⟩
    (by norm_num)
  simp only [List.getElem_range] at h01
  norm_num at h01

theorem curveSamplesOK_of_shape (t_end lo hi : ℚ) (g : ℕ → ℚ)
    (ht : 0 < t_end) (hlohi : lo ≤ hi) :
    curveSamplesOK
      ((List.range 100).map fun i : ℕ =>
        (t_end * (i : ℚ) / 99, max lo (min hi (g i))))
      t_end lo hi := by
  refine ⟨by simp, ?_, ?_⟩
  · rw [List.map_map]
    refine List.pairwise_map.mpr ?_
    refine (List.pairwise_lt_range 100).imp ?_
    intro i j hij
    show t_end * (i : ℚ) / 99 < t_end * (j : ℚ) / 99
    rw [div_lt_div_iff_of_pos_right (by norm_num : (0 : ℚ) < 99),
      mul_lt_mul_left ht]
    exact_mod_cast hij
  · intro p hp
    rcases List.mem_map.mp hp with ⟨i, hi, rfl⟩
    have hi' : i < 100 := List.mem_range.mp hi
    refine ⟨by positivity, ?_, le_max_left _ _, max_le hlohi (min_le_left _ _)⟩
    rw [div_le_iff₀ (by norm_num : (0 : ℚ) < 99)]
    calc t_end * (i : ℚ) ≤ t_end * 99 := by
          have : (i : ℚ) ≤ 99 := by exact_mod_cast Nat.le_of_lt_succ hi'
          exact mul_le_mul_of_nonneg_left this ht.le
      _ = t_end * 99 := rfl

/-- C8 amended: for `capacity_mAh > 0` (rather than `≥ 0`) and
`current_A > 0`, both curves return exactly 100 samples with strictly
increasing times inside `[0, t_end]`, `t_end = capacity_mAh /
(current_A * 1000)`, and every voltage clamped into the band between
the two voltage endpoints; at `capacity_mAh = 0` all 100 sample times
are `0`, so strict monotonicity needs the strengthened hypothesis. -/
theorem c8_amended_curve_contract (rexp : ℚ → ℚ) (noise : ℕ → ℚ)
    (v_start v_max v_min capacity_mAh current_A : ℚ)
    (hcap : 0 < capacity_mAh) (hcur : 0 < current_A) :
    curveSamplesOK (charge_curve rexp noise v_start v_max capacity_mAh current_A)
        (capacity_mAh / (current_A * 1000)) (min v_start v_max)
        (max v_start v_max) ∧
      curveSamplesOK
        (discharge_curve rexp noise v_max v_min capacity_mAh current_A)
        (capacity_mAh / (current_A * 1000)) (min v_min v_max)
        (max v_min v_max) := by
  have ht : 0 < capacity_mAh / (current_A * 1000) :=
    div_pos hcap (by positivity)
  refine ⟨?_, ?_⟩
  · exact curveSamplesOK_of_shape (capacity_mAh / (current_A * 1000))
      (min v_start v_max) (max v_start v_max)
      (fun i => v_start + (v_max - v_start) /
        (1 + rexp (-(12 * (capacity_mAh / (current_A * 1000) * (i : ℚ) / 99 /
          (capacity_mAh / (current_A * 1000)) - 1 / 2)))) + noise i)
      ht min_le_max
  · exact curveSamplesOK_of_shape (capacity_mAh / (current_A * 1000))
      (min v_min v_max) (max v_min v_max)
      (fun i => v_min + (v_max - v_min) /
        (1 + rexp (12 * (capacity_mAh / (current_A * 1000) * (i : ℚ) / 99 /
          (capacity_mAh / (current_A * 1000)) - 1 / 2))) + noise i)
      ht min_le_max

/-- Witness for `c8_amended_curve_contract` at a concrete LFP-style
charge and discharge run. -/
theorem c8_witness :
    (0 : ℚ) < 1000 ∧ (0 : ℚ) < 2 ∧
      (curveSamplesOK (charge_curve id (fun _ => 0) 3.2 3.4 1000 2)
          (1000 / (2 * 1000)) (min (3.2 : ℚ) 3.4) (max (3.2 : ℚ) 3.4) ∧
        curveSamplesOK (discharge_curve id (fun _ => 0) 3.4 2.8 1000 2)
          (1000 / (2 * 1000)) (min (2.8 : ℚ) 3.4) (max (2.8 : ℚ) 3.4)) :=
  ⟨by norm_num, by norm_num,
    c8_amended_curve_contract id (fun _ => 0) 3.2 3.4 2.8 1000 2 (by norm_num)
      (by norm_num)⟩

theorem digit_toNat (d : ℕ) (h : d < 10) :
    (Char.ofNat (48 + d)).toNat = 48 + d := by
  interval_cases d <;> decide

theorem renderNat_digit_bounds (n : ℕ) :
    ∀ c ∈ renderNat n, 48 ≤ c.toNat ∧ c.toNat ≤ 57 := by
  induction n using Nat.strong_induction_on with
  | _ n ih =>
    rw [renderNat]
    split
    · intro c hc
      rw [List.mem_singleton] at hc
      subst hc
      rw [digit_toNat n (by omega)]
      omega
    · intro c hc
      rcases List.mem_append.mp hc with hc | hc
      · exact ih (n / 10) (Nat.div_lt_self (by omega) (by omega)) c hc
      · rw [List.mem_singleton] at hc
        subst hc
        rw [digit_toNat (n % 10) (by omega)]
        omega

theorem parseNat_renderNat (n : ℕ) : parseNat (renderNat n) = n := by
  induction n using Nat.strong_induction_on with
  | _ n ih =>
    rw [renderNat]
    split
    · rw [parseNat, List.foldl_cons, List.foldl_nil, digit_toNat n (by omega)]
      omega
    · rw [parseNat, List.foldl_append, List.foldl_cons, List.foldl_nil]
      have hrec : List.foldl (fun a c => a * 10 + (c.toNat - 48)) 0
          (renderNat (n / 10)) = n / 10 :=
        ih (n / 10) (Nat.div_lt_self (by omega) (by omega))
      rw [hrec, digit_toNat (n % 10) (by omega)]
      omega

theorem ne_of_toNat_ne {c c' : Char} (h : c.toNat ≠ c'.toNat) : c ≠ c' :=
  fun hc => h (by rw [hc])

theorem fieldSafe_renderNat (n : ℕ) : fieldSafe (renderNat n) := by
  intro c hc
  have hb := renderNat_digit_bounds n c hc
  have h1 : (',').toNat = 44 := by decide
  have h2 : ('\n').toNat = 10 := by decide
  exact ⟨ne_of_toNat_ne (by omega), ne_of_toNat_ne (by omega)⟩

theorem fieldSafe_renderInt (z : ℤ) : fieldSafe (renderInt z) := by
  intro c hc
  rw [renderInt] at hc
  split at hc
  · rcases List.mem_cons.mp hc with hc | hc
    · subst hc
      exact ⟨by decide, by decide⟩
    · exact fieldSafe_renderNat _ c hc
  · exact fieldSafe_renderNat _ c hc

theorem fieldSafe_renderRat (q : ℚ) : fieldSafe (renderRat q) := by
  intro c hc
  rw [renderRat] at hc
  rcases List.mem_append.mp hc with hc | hc
  · exact fieldSafe_renderInt _ c hc
  · rcases List.mem_cons.mp hc with hc | hc
    · subst hc
      exact ⟨by decide, by decide⟩
    · exact fieldSafe_renderNat _ c hc

theorem splitSep_ne_nil (sep : Char) (cs : List Char) : splitSep sep cs ≠ [] := by
  induction cs with
  | nil => simp [splitSep]
  | cons c cs ih =>
      rw [splitSep]
      split
      · simp
      · cases h : splitSep sep cs with
        | nil => simp
        | cons p ps => simp

theorem splitSep_no_sep (sep : Char) (p : List Char) (h : sep ∉ p) :
    splitSep sep p = [p] := by
  induction p with
  | nil => rfl
  | cons c cs ih =>
      rw [List.mem_cons, not_or] at h
      rw [splitSep, if_neg (fun hc => h.1 hc.symm), ih h.2]

theorem splitSep_append (sep : Char) (p rest : List Char) (h : sep ∉ p) :
    splitSep sep (p ++ sep :: rest) = p :: splitSep sep rest := by
  induction p with
  | nil =>
      rw [List.nil_append, splitSep, if_pos rfl]
  | cons c cs ih =>
      rw [List.mem_cons, not_or] at h
      rw [List.cons_append, splitSep, if_neg (fun hc => h.1 hc.symm),
        ih h.2]

theorem splitSep_joinSep (sep : Char) (ps : List (List Char)) (hne : ps ≠ [])
    (h : ∀ p ∈ ps, sep ∉ p) :
    splitSep sep (joinSep sep ps) = ps := by
  induction ps with
  | nil => exact absurd rfl hne
  | cons p ps ih =>
      cases ps with
      | nil =>
          rw [joinSep]
          exact splitSep_no_sep sep p (h p (List.mem_cons_self _ _))
      | cons q ps =>
          rw [joinSep, splitSep_append sep p _ (h p (List.mem_cons_self _ _)),
            ih (by simp) (fun r hr => h r (List.mem_cons_of_mem _ hr))]
          simp

theorem mem_joinSep (sep : Char) (ps : List (List Char)) (c : Char)
    (hc : c ∈ joinSep sep ps) : c = sep ∨ ∃ p ∈ ps, c ∈ p := by
  induction ps with
  | nil => simp [joinSep] at hc
  | cons p ps ih =>
      cases ps with
      | nil =>
          rw [joinSep] at hc
          exact Or.inr ⟨p, List.mem_cons_self _ _, hc⟩
      | cons q ps =>
          rw [joinSep] at hc
          case x_1 => simp
          rcases List.mem_append.mp hc with hc | hc
          · exact Or.inr ⟨p, List.mem_cons_self _ _, hc⟩
          · rcases List.mem_cons.mp hc with hc | hc
            · exact Or.inl hc
            · rcases ih hc with hc | ⟨r, hr, hcr⟩
              · exact Or.inl hc
              · exact Or.inr ⟨r, List.mem_cons_of_mem _ hr, hcr⟩

theorem fieldSafe_not_mem {fld : List Char} (h : fieldSafe fld) :
    (',') ∉ fld ∧ ('\n') ∉ fld :=
  ⟨fun hc => (h _ hc).1 rfl, fun hc => (h _ hc).2 rfl⟩

theorem rowFields_safe (ts bench group : List Char) (slot : ℕ)
    (data : CellData) (hts : fieldSafe ts) (hb : fieldSafe bench)
    (hg : fieldSafe group)
    (htype : data.cell_type = "LFP" ∨ data.cell_type = "NMC") :
    ∀ fld ∈ rowFields (mkExportRow ts bench group slot data), fieldSafe fld := by
  intro fld hfld
  simp only [rowFields, mkExportRow, List.mem_cons, List.mem_singleton,
    List.not_mem_nil, or_false] at hfld
  rcases hfld with rfl | rfl | rfl | rfl | rfl | rfl | rfl | rfl | rfl | rfl | rfl | rfl
  · exact hts
  · exact hb
  · exact hg
  · exact fieldSafe_renderNat _
  · rcases htype with h | h <;> rw [h] <;> decide
  · exact fieldSafe_renderRat _
  · exact fieldSafe_renderRat _
  · exact fieldSafe_renderRat _
  · exact fieldSafe_renderRat _
  · exact fieldSafe_renderRat _
  · exact fieldSafe_renderRat _
  · split <;> decide

theorem map_split_join (X : List (List (List Char)))
    (h : ∀ fields ∈ X, fields ≠ [] ∧ ∀ fld ∈ fields, (',') ∉ fld) :
    (X.map (joinSep ',')).map (splitSep ',') = X := by
  induction X with
  | nil => rfl
  | cons fields X ih =>
      rw [List.map_cons, List.map_cons,
        splitSep_joinSep ',' fields (h fields (List.mem_cons_self _ _)).1
          (h fields (List.mem_cons_self _ _)).2,
        ih (fun fs hfs => h fs (List.mem_cons_of_mem _ hfs))]

theorem parse_to_csv (rows : List ExportRow)
    (hsafe : ∀ r ∈ rows, ∀ fld ∈ rowFields r, fieldSafe fld) :
    parse_csv (to_csv rows) = rows.map rowFields := by
  have hheader : ∀ fld ∈ csvHeaderFields, ('\n') ∉ fld ∧ (',') ∉ fld := by decide
  rw [to_csv, parse_csv]
  have hlines :
      splitSep '\n'
          (joinSep '\n' ((csvHeaderFields :: rows.map rowFields).map (joinSep ','))) =
        (csvHeaderFields :: rows.map rowFields).map (joinSep ',') := by
    apply splitSep_joinSep
    · simp
    · intro line hline
      rcases List.mem_map.mp hline with ⟨fields, hfields, rfl⟩
      intro hnl
      rcases mem_joinSep ',' fields '\n' hnl with hsep | ⟨fld, hfld, hc⟩
      · exact absurd hsep (by decide)
      · rcases List.mem_cons.mp hfields with rfl | hfields
        · exact (hheader fld hfld).1 hc
        · rcases List.mem_map.mp hfields with ⟨r, hr, rfl⟩
          exact (hsafe r hr fld hfld '\n' hc).2 rfl
  rw [hlines, List.map_cons, List.drop_succ_cons, List.drop_zero]
  apply map_split_join
  intro fields hfields
  rcases List.mem_map.mp hfields with ⟨r, hr, rfl⟩
  refine ⟨by rw [rowFields]; simp, ?_⟩
  intro fld hfld
  exact (fieldSafe_not_mem (hsafe r hr fld hfld)).1

theorem rowSlotType_rowFields (r : ExportRow) :
    rowSlotType (rowFields r) = (r.cell_slot, r.cell_type) := by
  show (parseNat (renderNat r.cell_slot), (⟨r.cell_type.data⟩ : String)) =
    (r.cell_slot, r.cell_type)
  rw [parseNat_renderNat]

theorem build_export_rows_aux (f : ℕ → CellData → ExportRow)
    (cells : List (ℕ × CellData)) (a : ℕ)
    (h : cells.map Prod.fst = List.range' (a + 1) cells.length) :
    ((List.range' a cells.length).filterMap fun i =>
        (dictGet (i + 1) cells).map (f (i + 1))) =
      cells.map fun kv => f kv.1 kv.2 := by
  induction cells generalizing a with
  | nil => rfl
  | cons kv cells ih =>
      simp only [List.map_cons, List.length_cons, List.range'_succ,
        List.cons.injEq] at h
      rw [List.length_cons, List.range'_succ, List.filterMap_cons, List.map_cons]
      have hhead : dictGet (a + 1) (kv :: cells) = some kv.2 := by
        rw [dictGet, if_pos h.1]
      rw [hhead]
      show f (a + 1) kv.2 :: _ = f kv.1 kv.2 :: _
      rw [h.1]
      congr 1
      rw [List.filterMap_congr ?_, ih (a + 1) h.2]
      intro i hi
      have hi' := List.mem_range'_1.mp hi
      rw [dictGet, if_neg (by omega)]

theorem build_export_rows_eq (ts bench group : List Char) (s : SessionState)
    (hwf : WellFormed s) :
    build_export_rows ts bench group s =
      s.cells_data.map fun kv => mkExportRow ts bench group kv.1 kv.2 := by
  have hwf' : s.cells_data.map Prod.fst = List.range' 1 s.num_cells := hwf
  have hlen : s.cells_data.length = s.num_cells := by
    have := congrArg List.length hwf'
    simpa using this
  rw [build_export_rows, ← hlen, List.range_eq_range']
  exact build_export_rows_aux (mkExportRow ts bench group) s.cells_data 0
    (by rw [hwf', hlen])

/-- C9: on a well-formed, non-empty store whose cell types are the two
known chemistries (and separator-free bench/group/timestamp strings),
exporting and then parsing the CSV text yields exactly one data row per
cell record and recovers the `(slot, cell type)` pair of every record,
in order. -/
theorem c9_csv_round_trip (ts bench group : List Char) (s : SessionState)
    (hwf : WellFormed s) (hne : s.cells_data ≠ [])
    (htypes : ∀ kv ∈ s.cells_data,
      kv.2.cell_type = "LFP" ∨ kv.2.cell_type = "NMC")
    (hts : fieldSafe ts) (hbench : fieldSafe bench) (hgroup : fieldSafe group) :
    ∃ rows, export_to_csv ts bench group s = some rows ∧
      (parse_csv (to_csv rows)).length = s.cells_data.length ∧
      (parse_csv (to_csv rows)).map rowSlotType =
        s.cells_data.map fun kv => (kv.1, kv.2.cell_type) := by
  have hrows : export_to_csv ts bench group s =
      some (build_export_rows ts bench group s) := by
    rw [export_to_csv, if_neg (by simpa [List.isEmpty_iff] using hne)]
  refine ⟨build_export_rows ts bench group s, hrows, ?_⟩
  rw [build_export_rows_eq ts bench group s hwf]
  have hsafe : ∀ r ∈ s.cells_data.map fun kv =>
      mkExportRow ts bench group kv.1 kv.2,
      ∀ fld ∈ rowFields r, fieldSafe fld := by
    intro r hr
    rcases List.mem_map.mp hr with ⟨kv, hkv, rfl⟩
    exact rowFields_safe ts bench group kv.1 kv.2 hts hbench hgroup
      (htypes kv hkv)
  rw [parse_to_csv _ hsafe, List.map_map, List.map_map]
  constructor
  · simp
  · apply List.map_congr_left
    intro kv _
    show rowSlotType (rowFields (mkExportRow ts bench group kv.1 kv.2)) = _
    rw [rowSlotType_rowFields]
    rfl

/-- Witness for `c9_csv_round_trip` on the concrete one-cell state. -/
theorem c9_witness :
    WellFormed oneCellState ∧ oneCellState.cells_data ≠ [] ∧
      (∀ kv ∈ oneCellState.cells_data,
        kv.2.cell_type = "LFP" ∨ kv.2.cell_type = "NMC") ∧
      fieldSafe "t".data ∧ fieldSafe "Bench_001".data ∧
      fieldSafe "Group_A".data ∧
      ∃ rows,
        export_to_csv "t".data "Bench_001".data "Group_A".data oneCellState =
            some rows ∧
          (parse_csv (to_csv rows)).length = oneCellState.cells_data.length ∧
          (parse_csv (to_csv rows)).map rowSlotType =
            oneCellState.cells_data.map fun kv => (kv.1, kv.2.cell_type) :=
  ⟨rfl, by decide, by decide, by decide, by decide, by decide,
    c9_csv_round_trip "t".data "Bench_001".data "Group_A".data oneCellState
      rfl (by decide) (by decide) (by decide) (by decide) (by decide)⟩

/-- C10: with no cell records in the store, `export_to_csv` returns
`None` (no table, no exception), and the export button handler shows
the "No data available to export" error instead of producing a CSV. -/
theorem c10_export_empty (ts bench group : List Char) (s : SessionState)
    (h : s.cells_data = []) :
    export_to_csv ts bench group s = none ∧
      export_csv_button ts bench group s =
        ExportOutcome.error "No data available to export".data := by
  have he : export_to_csv ts bench group s = none := by
    rw [export_to_csv, if_pos (by rw [h]; rfl)]
  exact ⟨he, by rw [export_csv_button, he]⟩

/-- Witness for `c10_export_empty` on the empty store. -/
theorem c10_witness :
    (⟨0, []⟩ : SessionState).cells_data = [] ∧
      (export_to_csv [] [] [] ⟨0, []⟩ = none ∧
        export_csv_button [] [] [] ⟨0, []⟩ =
          ExportOutcome.error "No data available to export".data) :=
  ⟨rfl, c10_export_empty [] [] [] ⟨0, []⟩ rfl⟩

/-- C4: `update_cell_count` is idempotent: a second call with the same
target count (whatever fresh randomness it would draw) leaves the state
of the first call unchanged, since after the first call
`num_cells = new_count` and neither the grow nor the shrink branch
fires. -/
theorem c4_update_cell_count_idempotent (n : ℕ)
    (samples samples2 : ℕ → RandSamples) (s : SessionState) :
    update_cell_count n samples2 (update_cell_count n samples s) =
      update_cell_count n samples s := by
  simp [update_cell_count]

end BatteryApp
